import Mathlib

/-
  Verification of the proxy/observation engine of the claude-code-logger
  repository (src/proxy-server.ts).

  Modelling conventions:
  * JavaScript strings are modelled as `List Char` (their character sequences);
    Node `Buffer`s are modelled as `List Nat` (their byte sequences).
  * The stateful `sseMessages : Map<string, SseMessage>` is modelled as an
    ordered association list with JS-Map semantics (set replaces in place,
    otherwise appends; delete removes the keyed entry).
  * `JSON.parse` is modelled by an executable recursive-descent parser over
    `List Char` (numbers are kept as uninterpreted lexemes: no claim in this
    development inspects a numeric value).
  * External runtime primitives used by the source (`Buffer.toString('utf8')`,
    `JSON.stringify(v, null, 2)`) are given executable Lean implementations.
-/

/-! ## JavaScript string primitives -/

/-- Whitespace for JS `String.prototype.trim` (ASCII part, plus NBSP/BOM). -/
def isJsSpace (c : Char) : Bool :=
  c == ' ' || c == '\t' || c == '\n' || c == '\r' ||
  c.toNat == 11 || c.toNat == 12 || c.toNat == 0xA0 || c.toNat == 0xFEFF

/-- JS `line.trim()`. -/
def jsTrim (cs : List Char) : List Char :=
  ((cs.dropWhile isJsSpace).reverse.dropWhile isJsSpace).reverse

/-- JS `str.split(sep)` for a single-character separator.
`splitOnChar sep cs` always returns a non-empty list of segments. -/
def splitOnChar (sep : Char) : List Char → List (List Char)
  | [] => [[]]
  | c :: cs =>
    if c = sep then [] :: splitOnChar sep cs
    else
      match splitOnChar sep cs with
      | [] => [[c]]
      | l :: ls => (c :: l) :: ls

/-- JS `hay.includes(sub)` (substring containment). -/
def jsIncludes (hay sub : List Char) : Bool :=
  hay.tails.any (fun t => sub.isPrefixOf t)

/-! ## SSE event parser (`parseSseEvents`, proxy-server.ts lines 501-535) -/

/-- One server-sent-event frame, as collected by `parseSseEvents`
(interface `SseEvent` in the source: all three fields optional). -/
structure SseEvent where
  event : Option (List Char)
  data : Option (List Char)
  id : Option (List Char)
deriving DecidableEq

/-- The frame `{}` with no fields collected yet (`currentEvent = {}`). -/
def emptySseEvent : SseEvent := ⟨none, none, none⟩

/-- JS `Object.keys(currentEvent).length > 0`: at least one field was set. -/
def nonemptyEv (e : SseEvent) : Bool :=
  e.event.isSome || e.data.isSome || e.id.isSome

/-- One iteration of the `for (const line of lines)` loop of `parseSseEvents`:
state is (events emitted so far, pending frame). -/
def sseLineStep (st : List SseEvent × SseEvent) (line : List Char) :
    List SseEvent × SseEvent :=
  let t := jsTrim line
  if t = [] then
    if nonemptyEv st.2 then (st.1 ++ [st.2], emptySseEvent) else st
  else if ("event:".data).isPrefixOf t then
    (st.1, { st.2 with event := some (jsTrim (t.drop 6)) })
  else if ("data:".data).isPrefixOf t then
    (st.1, { st.2 with data := some ((st.2.data.getD []) ++ jsTrim (t.drop 5)) })
  else if ("id:".data).isPrefixOf t then
    (st.1, { st.2 with id := some (jsTrim (t.drop 3)) })
  else st

/-- The `// Add last event if exists` epilogue of `parseSseEvents`. -/
def finishSse (r : List SseEvent × SseEvent) : List SseEvent :=
  if nonemptyEv r.2 then r.1 ++ [r.2] else r.1

/-- `parseSseEvents(sseData)`: split on newlines, fold the line loop, and
emit the trailing unterminated frame if it is non-empty. -/
def parseSseEvents (sseData : List Char) : List SseEvent :=
  finishSse ((splitOnChar '\n' sseData).foldl sseLineStep ([], emptySseEvent))

/-! ## JSON model (`JSON.parse` / `JSON.stringify(v, null, 2)`) -/

/-- Parsed JSON values. Numeric lexemes are kept uninterpreted (`jnum`):
no claim of this development inspects a numeric value. -/
inductive Jsonv where
  | jnull : Jsonv
  | jbool : Bool → Jsonv
  | jnum : List Char → Jsonv
  | jstr : List Char → Jsonv
  | jarr : List Jsonv → Jsonv
  | jobj : List (List Char × Jsonv) → Jsonv

def lbraceC : Char := Char.ofNat 123

def rbraceC : Char := Char.ofNat 125

/-- JSON insignificant whitespace. -/
def skipJWs (cs : List Char) : List Char :=
  cs.dropWhile (fun c => c == ' ' || c == '\t' || c == '\n' || c == '\r')

def hexVal (c : Char) : Option Nat :=
  if '0' ≤ c ∧ c ≤ '9' then some (c.toNat - 48)
  else if 'a' ≤ c ∧ c ≤ 'f' then some (c.toNat - 87)
  else if 'A' ≤ c ∧ c ≤ 'F' then some (c.toNat - 55)
  else none

def escChar (e : Char) : Option Char :=
  if e = '"' then some '"'
  else if e = '\\' then some '\\'
  else if e = '/' then some '/'
  else if e = 'b' then some (Char.ofNat 8)
  else if e = 'f' then some (Char.ofNat 12)
  else if e = 'n' then some '\n'
  else if e = 'r' then some '\r'
  else if e = 't' then some '\t'
  else none

/-- JSON string body (after the opening quote): returns (content, rest). -/
def parseJStrAux : List Char → Option (List Char × List Char)
  | [] => none
  | c :: rest =>
    if c = '"' then some ([], rest)
    else if c = '\\' then
      match rest with
      | [] => none
      | e :: rest2 =>
        if e = 'u' then
          match rest2 with
          | h1 :: h2 :: h3 :: h4 :: rest3 =>
            match hexVal h1, hexVal h2, hexVal h3, hexVal h4 with
            | some a, some b, some c3, some d =>
              match parseJStrAux rest3 with
              | some (s, r) => some (Char.ofNat (((a * 16 + b) * 16 + c3) * 16 + d) :: s, r)
              | none => none
            | _, _, _, _ => none
          | _ => none
        else
          match escChar e with
          | some ec =>
            match parseJStrAux rest2 with
            | some (s, r) => some (ec :: s, r)
            | none => none
          | none => none
    else if c.toNat < 32 then none
    else
      match parseJStrAux rest with
      | some (s, r) => some (c :: s, r)
      | none => none

/-- Optional fraction part of a JSON number. -/
def parseJFrac : List Char → Option (List Char × List Char)
  | '.' :: rf =>
    match rf.span Char.isDigit with
    | (fs, rr) => if fs = [] then none else some ('.' :: fs, rr)
  | cs => some ([], cs)

/-- Optional exponent part of a JSON number. -/
def parseJExp : List Char → Option (List Char × List Char)
  | c :: rest =>
    if c = 'e' ∨ c = 'E' then
      let p : List Char × List Char :=
        match rest with
        | '+' :: r => (['+'], r)
        | '-' :: r => (['-'], r)
        | _ => ([], rest)
      match (p.2).span Char.isDigit with
      | (ds, rr) => if ds = [] then none else some (c :: p.1 ++ ds, rr)
    else some ([], c :: rest)
  | [] => some ([], [])

/-- JSON number lexeme (rejects leading zeros, bare signs, bare dots). -/
def parseJNum (cs : List Char) : Option (List Char × List Char) :=
  let p : List Char × List Char :=
    match cs with
    | '-' :: r => (['-'], r)
    | _ => ([], cs)
  match (p.2).span Char.isDigit with
  | (ds, r2) =>
    if ds = [] then none
    else if 1 < ds.length ∧ ds.headD 'x' = '0' then none
    else
      match parseJFrac r2 with
      | none => none
      | some (fr, r3) =>
        match parseJExp r3 with
        | none => none
        | some (ex, r4) => some (p.1 ++ ds ++ fr ++ ex, r4)

mutual

/-- JSON value parser (fuel-indexed recursive descent). -/
def parseJVal : Nat → List Char → Option (Jsonv × List Char)
  | 0, _ => none
  | fuel + 1, cs =>
    match skipJWs cs with
    | [] => none
    | c :: rest =>
      if c = lbraceC then parseJObj fuel rest
      else if c = '[' then parseJArr fuel rest
      else if c = '"' then
        match parseJStrAux rest with
        | some (s, r) => some (Jsonv.jstr s, r)
        | none => none
      else if c = 't' then
        if ("rue".data).isPrefixOf rest then some (Jsonv.jbool true, rest.drop 3) else none
      else if c = 'f' then
        if ("alse".data).isPrefixOf rest then some (Jsonv.jbool false, rest.drop 4) else none
      else if c = 'n' then
        if ("ull".data).isPrefixOf rest then some (Jsonv.jnull, rest.drop 3) else none
      else
        match parseJNum (c :: rest) with
        | some (raw, r) => some (Jsonv.jnum raw, r)
        | none => none

/-- Object body, just after the opening brace. -/
def parseJObj : Nat → List Char → Option (Jsonv × List Char)
  | 0, _ => none
  | fuel + 1, cs =>
    match skipJWs cs with
    | [] => none
    | c :: rest =>
      if c = rbraceC then some (Jsonv.jobj [], rest)
      else parseJMembers fuel (c :: rest) []

/-- Non-empty member list of an object. -/
def parseJMembers : Nat → List Char → List (List Char × Jsonv) →
    Option (Jsonv × List Char)
  | 0, _, _ => none
  | fuel + 1, cs, acc =>
    match skipJWs cs with
    | [] => none
    | c :: rest =>
      if c = '"' then
        match parseJStrAux rest with
        | some (k, r1) =>
          match skipJWs r1 with
          | ':' :: r2 =>
            match parseJVal fuel r2 with
            | some (v, r3) =>
              match skipJWs r3 with
              | ',' :: r4 => parseJMembers fuel r4 (acc ++ [(k, v)])
              | c2 :: r4 =>
                if c2 = rbraceC then some (Jsonv.jobj (acc ++ [(k, v)]), r4) else none
              | [] => none
            | none => none
          | _ => none
        | none => none
      else none

/-- Array body, just after the opening bracket. -/
def parseJArr : Nat → List Char → Option (Jsonv × List Char)
  | 0, _ => none
  | fuel + 1, cs =>
    match skipJWs cs with
    | ']' :: rest => some (Jsonv.jarr [], rest)
    | _ => parseJElems fuel cs []

/-- Non-empty element list of an array. -/
def parseJElems : Nat → List Char → List Jsonv → Option (Jsonv × List Char)
  | 0, _, _ => none
  | fuel + 1, cs, acc =>
    match parseJVal fuel cs with
    | some (v, r) =>
      match skipJWs r with
      | ',' :: r2 => parseJElems fuel r2 (acc ++ [v])
      | ']' :: r2 => some (Jsonv.jarr (acc ++ [v]), r2)
      | _ => none
    | none => none

end

/-- `JSON.parse(cs)`: parse one value and require only whitespace after it. -/
def jsonParse (cs : List Char) : Option Jsonv :=
  match parseJVal (cs.length + 2) cs with
  | some (v, rest) => if skipJWs rest = [] then some v else none
  | none => none

/-- Property lookup on a parsed object; later duplicate keys win, as in
`JSON.parse`. Non-objects have no properties. -/
def jgetField (j : Jsonv) (key : List Char) : Option Jsonv :=
  match j with
  | Jsonv.jobj fields =>
    fields.foldl (fun acc p => if p.1 = key then some p.2 else acc) none
  | _ => none

/-! ## Stream reassembler (`processSseStream`, proxy-server.ts lines 407-499) -/

/-- `event.data || '{}'` / `parts[1] || '443'`: JS string-or-default, where
the empty string is falsy. `none` models `undefined`. -/
def jsOrStr (a : Option (List Char)) (dflt : List Char) : List Char :=
  match a with
  | some s => if s = [] then dflt else s
  | none => dflt

/-- The delta-text extraction done per `content_block_delta` event:
`JSON.parse(event.data || '{}')` then `data.delta?.text || ''`; any parse
error (and any non-string/absent field) contributes the empty string. -/
def extractDeltaText (d : Option (List Char)) : List Char :=
  match jsonParse (jsOrStr d ("\x7b\x7d".data)) with
  | none => []
  | some j =>
    match jgetField j ("delta".data) with
    | some dj =>
      match jgetField dj ("text".data) with
      | some (Jsonv.jstr s) => s
      | _ => []
    | none => []

/-- `interface SseMessage` of the source. -/
structure SseMessage where
  requestId : List Char
  events : List SseEvent
  mergedContent : List Char
deriving DecidableEq

/-- The `sseMessages : Map<string, SseMessage>` field, as an ordered
association list with JS-Map semantics. -/
abbrev SseMap := List (List Char × SseMessage)

/-- JS `map.get(k)`. -/
def mapGet : SseMap → List Char → Option SseMessage
  | [], _ => none
  | p :: rest, k => if p.1 = k then some p.2 else mapGet rest k

/-- JS `map.set(k, v)`: replaces in place, otherwise appends. -/
def mapSet : SseMap → List Char → SseMessage → SseMap
  | [], k, v => [(k, v)]
  | p :: rest, k, v => if p.1 = k then (k, v) :: rest else p :: mapSet rest k v

/-- JS `map.delete(k)`. -/
def mapDelete : SseMap → List Char → SseMap
  | [], _ => []
  | p :: rest, k => if p.1 = k then mapDelete rest k else p :: mapDelete rest k

/-- The `textDeltas` pipeline of `processSseStream`: filter the batch to
`content_block_delta` events, extract each delta text, drop empties. -/
def textDeltas (events : List SseEvent) : List (List Char) :=
  ((events.filter (fun e => e.event = some ("content_block_delta".data))).map
    (fun e => extractDeltaText e.data)).filter (fun t => 0 < t.length)

def hasMessageStop (events : List SseEvent) : Bool :=
  events.any (fun e => e.event = some ("message_stop".data))

def hasContentBlockStop (events : List SseEvent) : Bool :=
  events.any (fun e => e.event = some ("content_block_stop".data))

/-- `event.event === 'message_delta' && event.data?.includes('stop_reason')`. -/
def hasMessageDeltaStop (events : List SseEvent) : Bool :=
  events.any (fun e =>
    decide (e.event = some ("message_delta".data)) &&
    (match e.data with
     | some d => jsIncludes d ("stop_reason".data)
     | none => false))

/-- The disjunctive stream-completion check of `processSseStream`. -/
def sseBatchTerminal (events : List SseEvent) : Bool :=
  hasMessageStop events || hasContentBlockStop events || hasMessageDeltaStop events

/-- Result of one `processSseStream` call: the updated map, the merged
content of the tracked message after this batch, and the completion flag. -/
structure SseFeedResult where
  sseMessages : SseMap
  mergedContent : List Char
  complete : Bool
deriving DecidableEq

/-- The body of `processSseStream` after event parsing: get-or-create the
tracker, append the batch, append the joined deltas to the accumulator,
and on any terminal event delete the tracker from the map. -/
def processSseEvents (m : SseMap) (requestId : List Char) (events : List SseEvent) :
    SseFeedResult :=
  let msg0 := match mapGet m requestId with
    | some s => s
    | none => { requestId := requestId, events := [], mergedContent := [] }
  let msg1 := { msg0 with events := msg0.events ++ events }
  let deltas := textDeltas events
  let msg2 := if 0 < deltas.length then
      { msg1 with mergedContent := msg1.mergedContent ++ deltas.flatten }
    else msg1
  let complete := sseBatchTerminal events
  { sseMessages := if complete then mapDelete (mapSet m requestId msg2) requestId
      else mapSet m requestId msg2
    mergedContent := msg2.mergedContent
    complete := complete }

/-! ## UTF-8 decoding (Node `Buffer.prototype.toString('utf8')`) -/

def replacementChar : Char := Char.ofNat 0xFFFD

def isContByte (b : Nat) : Bool := 0x80 ≤ b && b < 0xC0

/-- Fuel-indexed UTF-8 decoder with U+FFFD substitution for invalid input. -/
def utf8DecodeAux : Nat → List Nat → List Char
  | 0, _ => []
  | _, [] => []
  | fuel + 1, b :: rest =>
    if b < 0x80 then Char.ofNat b :: utf8DecodeAux fuel rest
    else if 0xC2 ≤ b && b ≤ 0xDF then
      match rest with
      | b2 :: rest2 =>
        if isContByte b2 then
          Char.ofNat ((b - 0xC0) * 64 + (b2 - 0x80)) :: utf8DecodeAux fuel rest2
        else replacementChar :: utf8DecodeAux fuel rest
      | [] => [replacementChar]
    else if 0xE0 ≤ b && b ≤ 0xEF then
      match rest with
      | b2 :: b3 :: rest3 =>
        if isContByte b2 && isContByte b3 then
          let code := (b - 0xE0) * 4096 + (b2 - 0x80) * 64 + (b3 - 0x80)
          if code < 0x800 ∨ (0xD800 ≤ code ∧ code ≤ 0xDFFF) then
            replacementChar :: utf8DecodeAux fuel rest3
          else Char.ofNat code :: utf8DecodeAux fuel rest3
        else replacementChar :: utf8DecodeAux fuel rest
      | _ => [replacementChar]
    else if 0xF0 ≤ b && b ≤ 0xF4 then
      match rest with
      | b2 :: b3 :: b4 :: rest4 =>
        if isContByte b2 && isContByte b3 && isContByte b4 then
          let code := (b - 0xF0) * 262144 + (b2 - 0x80) * 4096 +
            (b3 - 0x80) * 64 + (b4 - 0x80)
          if code < 0x10000 ∨ 0x10FFFF < code then
            replacementChar :: utf8DecodeAux fuel rest4
          else Char.ofNat code :: utf8DecodeAux fuel rest4
        else replacementChar :: utf8DecodeAux fuel rest
      | _ => [replacementChar]
    else replacementChar :: utf8DecodeAux fuel rest

/-- Node `buffer.toString('utf8')`. -/
def utf8Decode (bytes : List Nat) : List Char := utf8DecodeAux bytes.length bytes

/-- `processSseStream(requestId, body)`: decode the buffer, parse the SSE
events, and feed them to the reassembly step. -/
def processSseStream (m : SseMap) (requestId : List Char) (body : List Nat) :
    SseFeedResult :=
  processSseEvents m requestId (parseSseEvents (utf8Decode body))

/-! ## Proxy engine state and handlers -/

/-- `interface ProxyServerOptions` (optional booleans modelled as `Bool`). -/
structure ProxyServerOptions where
  localPort : Nat
  remoteHost : List Char
  remotePort : Nat
  useHttps : Bool
  localHttps : Bool
  logBody : Bool
  mergeSse : Bool
  debug : Bool
  chatMode : Bool
  verbose : Bool
deriving DecidableEq

/-- `contentType?.includes('text/event-stream')` (undefined is falsy). -/
def ctIncludesEventStream (contentType : Option (List Char)) : Bool :=
  match contentType with
  | some ct => jsIncludes ct ("text/event-stream".data)
  | none => false

/-- The condition under which the response-end path reaches
`processSseStream`: `handleResponse` calls `logResponseBody` only when
`(logBody || chatMode) && responseBody.length > 0`, and `logResponseBody`
routes to `processSseStream` only when
`(mergeSse || chatMode) && contentType?.includes('text/event-stream')`. -/
def sseProcessedAtEnd (opts : ProxyServerOptions) (responseBody : List Nat)
    (contentType : Option (List Char)) : Bool :=
  ((opts.logBody || opts.chatMode) && decide (0 < responseBody.length)) &&
  ((opts.mergeSse || opts.chatMode) && ctIncludesEventStream contentType)

/-- The complete effect of exchange teardown (the `proxyRes.on('end')`
handler together with `logResponseBody`) on the `sseMessages` map: the map
is touched only via `processSseStream`; no other eviction happens when the
exchange ends (the 'error' handlers never touch the map). -/
def responseEndSseMessages (opts : ProxyServerOptions) (m : SseMap)
    (requestId : List Char) (responseBody : List Nat)
    (contentType : Option (List Char)) : SseMap :=
  if (opts.logBody || opts.chatMode) && decide (0 < responseBody.length) then
    if (opts.mergeSse || opts.chatMode) && ctIncludesEventStream contentType then
      (processSseStream m requestId responseBody).sseMessages
    else m
  else m

/-! ## Body codec (`isBinaryData`, `formatBody`, proxy-server.ts 339-405) -/

/-- `isBinaryData(buffer)`: a null byte anywhere in
`buffer.subarray(0, Math.min(512, buffer.length))` classifies as binary. -/
def isBinaryData (buffer : List Nat) : Bool :=
  (buffer.take (min 512 buffer.length)).any (fun b => b == 0)

/-- `isJsonContent(str)`: the trimmed string starts/ends with `\x7b`/`\x7d`
or with `[`/`]`. -/
def isJsonContent (s : List Char) : Bool :=
  let trimmed := jsTrim s
  (decide (trimmed.headD ' ' = lbraceC) && decide (trimmed.getLastD ' ' = rbraceC)) ||
  (decide (trimmed.headD ' ' = '[') && decide (trimmed.getLastD ' ' = ']'))

def hexDigitChar (d : Nat) : Char :=
  if d < 10 then Char.ofNat (48 + d) else Char.ofNat (87 + d)

/-- String-character escaping of `JSON.stringify`. -/
def escapeJChar (c : Char) : List Char :=
  if c = '"' then ['\\', '"']
  else if c = '\\' then ['\\', '\\']
  else if c = '\n' then ['\\', 'n']
  else if c = '\r' then ['\\', 'r']
  else if c = '\t' then ['\\', 't']
  else if c.toNat = 8 then ['\\', 'b']
  else if c.toNat = 12 then ['\\', 'f']
  else if c.toNat < 32 then
    '\\' :: 'u' :: [hexDigitChar (c.toNat / 4096 % 16), hexDigitChar (c.toNat / 256 % 16),
      hexDigitChar (c.toNat / 16 % 16), hexDigitChar (c.toNat % 16)]
  else [c]

def jquote (s : List Char) : List Char :=
  '"' :: ((s.map escapeJChar).flatten ++ ['"'])

def nSpaces (n : Nat) : List Char := List.replicate n ' '

mutual

/-- `JSON.stringify(v, null, 2)` at the given enclosing indentation.
Numeric lexemes are emitted as parsed (double re-canonicalization of
numbers is not modelled; no claim depends on it). -/
def jsonStringify (v : Jsonv) (ind : Nat) : List Char :=
  match v with
  | Jsonv.jnull => "null".data
  | Jsonv.jbool true => "true".data
  | Jsonv.jbool false => "false".data
  | Jsonv.jnum raw => raw
  | Jsonv.jstr s => jquote s
  | Jsonv.jarr [] => "[]".data
  | Jsonv.jarr (x :: xs) =>
    '[' :: '\n' :: (jsonStringifyItems (x :: xs) (ind + 2) ++
      ('\n' :: (nSpaces ind ++ [']'])))
  | Jsonv.jobj [] => "\x7b\x7d".data
  | Jsonv.jobj (f :: fs) =>
    lbraceC :: '\n' :: (jsonStringifyFields (f :: fs) (ind + 2) ++
      ('\n' :: (nSpaces ind ++ [rbraceC])))

def jsonStringifyItems (items : List Jsonv) (ind : Nat) : List Char :=
  match items with
  | [] => []
  | [x] => nSpaces ind ++ jsonStringify x ind
  | x :: y :: xs =>
    nSpaces ind ++ jsonStringify x ind ++
      (',' :: '\n' :: jsonStringifyItems (y :: xs) ind)

def jsonStringifyFields (fields : List (List Char × Jsonv)) (ind : Nat) : List Char :=
  match fields with
  | [] => []
  | [(k, v)] => nSpaces ind ++ (jquote k ++ (':' :: ' ' :: jsonStringify v ind))
  | (k, v) :: g :: fs =>
    nSpaces ind ++ (jquote k ++ (':' :: ' ' :: jsonStringify v ind)) ++
      (',' :: '\n' :: jsonStringifyFields (g :: fs) ind)

end

/-- The non-binary tail of `formatBody`: UTF-8 decode, pretty-print if the
text looks like JSON and parses, then cap at 1000 characters with a
truncation marker. -/
def formatBodyText (s : List Char) : List Char :=
  let bodyStr :=
    if isJsonContent s then
      match jsonParse s with
      | some parsed => jsonStringify parsed 0
      | none => s
    else s
  if 1000 < bodyStr.length then bodyStr.take 1000 ++ ("\n... (truncated)".data)
  else bodyStr

/-- Display form produced by `formatBody`: either the
`<Binary data: N bytes>` placeholder or rendered text. -/
inductive BodyDisplay where
  | binaryMarker : Nat → BodyDisplay
  | text : List Char → BodyDisplay
deriving DecidableEq

/-- `formatBody(body, contentEncoding)` for the identity-encoding path
(`contentEncoding` absent, so `decompressedBody = body`; the gzip/deflate/br
branches invoke Node zlib and are outside this embedding). -/
def formatBody (body : List Nat) : BodyDisplay :=
  if isBinaryData body then BodyDisplay.binaryMarker body.length
  else BodyDisplay.text (formatBodyText (utf8Decode body))

/-! ## CONNECT target parsing (`parseConnectUrl`, lines 193-199) -/

structure ConnectTarget where
  hostname : List Char
  port : List Char
deriving DecidableEq

/-- `parseConnectUrl(connectUrl)`: split on `:`; hostname is `parts[0]`,
port is `parts[1] || '443'`. -/
def parseConnectUrl (connectUrl : List Char) : ConnectTarget :=
  let parts := splitOnChar ':' connectUrl
  { hostname := parts.headD []
    port := match parts with
      | _ :: p :: _ => if p = [] then "443".data else p
      | _ => "443".data }

/-! ## Request forwarding and identifiers (`handleRequest`, lines 61-120) -/

/-- Base-36 digit of `Number.prototype.toString(36)`. -/
def digitChar (d : Nat) : Char :=
  if d < 10 then Char.ofNat (48 + d) else Char.ofNat (87 + d)

/-- `Math.random().toString(36).substring(2, 11)`, with the random double
modelled by its base-36 fraction-digit list: drop `0.` and keep at most
nine digits. -/
def idOfDraw (draw : List Nat) : List Char := (draw.take 9).map digitChar

/-- Per-exchange forwarding state of `handleRequest`: the identifier, the
inspection accumulator `requestBody`, and the chunks written upstream. -/
structure ReqForwardState where
  requestId : List Char
  requestBody : List Nat
  upstreamWritten : List (List Nat)
deriving DecidableEq

/-- State at accept time: the identifier is computed from the random draw
before any forwarding; both buffers start empty. -/
def initReqState (draw : List Nat) : ReqForwardState :=
  { requestId := idOfDraw draw, requestBody := [], upstreamWritten := [] }

/-- The `req.on('data')` handler: accumulate the chunk into `requestBody`
only under inspection (`logBody || chatMode`), and always
`proxyReq.write(chunk)`. -/
def onReqData (opts : ProxyServerOptions) (st : ReqForwardState)
    (chunk : List Nat) : ReqForwardState :=
  { st with
    requestBody :=
      if opts.logBody || opts.chatMode then st.requestBody ++ chunk else st.requestBody
    upstreamWritten := st.upstreamWritten ++ [chunk] }

/-- Folding the data handler over an arriving chunk sequence. -/
def runReqData (opts : ProxyServerOptions) (st : ReqForwardState)
    (chunks : List (List Nat)) : ReqForwardState :=
  chunks.foldl (onReqData opts) st

/-! ## Upstream error handlers (lines 90-96 and 153-158) -/

/-- Observable state of the client `ServerResponse`. -/
structure ClientResState where
  headersSent : Bool
  writtenStatus : Option Nat
  bodyWrites : List (List Char)
  writableEnded : Bool
deriving DecidableEq

/-- The `proxyReq.on('error')` handler: if headers were not yet sent,
`res.writeHead(500, ...)` then `res.end('Proxy Error')`; otherwise nothing
is written. -/
def onProxyReqError (res : ClientResState) : ClientResState :=
  if !res.headersSent then
    { headersSent := true
      writtenStatus := some 500
      bodyWrites := res.bodyWrites ++ [("Proxy Error".data)]
      writableEnded := true }
  else res

/-- The `proxyRes.on('error')` handler: `if (!res.writableEnded) res.end()`;
no status or body is ever written here. -/
def onProxyResError (res : ClientResState) : ClientResState :=
  if !res.writableEnded then { res with writableEnded := true } else res

/-! ## Concrete fixtures used by witnesses and counterexamples -/

/-- A `content_block_delta` event carrying delta text "Hi". -/
def cbdHiEvent : SseEvent :=
  ⟨some ("content_block_delta".data),
   some ("\x7b\"type\":\"content_block_delta\",\"delta\":\x7b\"text\":\"Hi\"\x7d\x7d".data), none⟩

/-- A `content_block_delta` event carrying delta text " there". -/
def cbdThereEvent : SseEvent :=
  ⟨some ("content_block_delta".data),
   some ("\x7b\"type\":\"content_block_delta\",\"delta\":\x7b\"text\":\" there\"\x7d\x7d".data), none⟩

/-- A terminal `message_stop` event. -/
def messageStopEvent : SseEvent :=
  ⟨some ("message_stop".data), some ("\x7b\"type\":\"message_stop\"\x7d".data), none⟩

/-- A `content_block_delta` event whose data is not valid JSON. -/
def cbdCorruptEvent : SseEvent :=
  ⟨some ("content_block_delta".data), some ("\x7bnot json".data), none⟩

/-- A `content_block_delta` event carrying delta text "A". -/
def cbdAEvent : SseEvent :=
  ⟨some ("content_block_delta".data), some ("\x7b\"delta\":\x7b\"text\":\"A\"\x7d\x7d".data), none⟩

/-- A `content_block_delta` event carrying delta text "C". -/
def cbdCEvent : SseEvent :=
  ⟨some ("content_block_delta".data), some ("\x7b\"delta\":\x7b\"text\":\"C\"\x7d\x7d".data), none⟩

/-- Options as produced by the shipped CLI defaults: chat mode on, body
logging and SSE merging off. -/
def optsChatOnly : ProxyServerOptions :=
  ⟨8000, "api.anthropic.com".data, 443, true, false, false, false, false, true, false⟩

/-- An SSE response body holding one delta and no terminal event. -/
def sseNoStopBody : List Nat :=
  ("event: content_block_delta\ndata: \x7b\"delta\":\x7b\"text\":\"partial\"\x7d\x7d\n\n".data).map Char.toNat

/-- An SSE response body whose single batch contains `message_stop`. -/
def sseStopBody : List Nat :=
  ("event: message_stop\ndata: \x7b\x7d\n\n".data).map Char.toNat

def eventStreamCt : Option (List Char) := some ("text/event-stream".data)

/-! ## Helper lemmas -/

theorem mapGet_mapSet (m : SseMap) (k : List Char) (v : SseMessage) :
    mapGet (mapSet m k v) k = some v := by
  induction m with
  | nil => simp [mapSet, mapGet]
  | cons p rest ih =>
    by_cases h : p.1 = k <;> simp [mapSet, mapGet, h, ih]

theorem mapGet_mapDelete (m : SseMap) (k : List Char) :
    mapGet (mapDelete m k) k = none := by
  induction m with
  | nil => simp [mapDelete, mapGet]
  | cons p rest ih =>
    by_cases h : p.1 = k <;> simp [mapDelete, mapGet, h, ih]

theorem nonemptyEv_false_eq (p : SseEvent) (h : nonemptyEv p = false) :
    p = emptySseEvent := by
  cases p with
  | mk e d i => cases e <;> cases d <;> cases i <;> simp_all [nonemptyEv, emptySseEvent]

theorem sseLineStep_fst_all (st : List SseEvent × SseEvent) (l : List Char)
    (h : st.1.all nonemptyEv = true) : ((sseLineStep st l).1).all nonemptyEv = true := by
  unfold sseLineStep
  dsimp only
  split_ifs with h1 h2 <;> simp_all

theorem sseFold_all (ls : List (List Char)) :
    ∀ st : List SseEvent × SseEvent, st.1.all nonemptyEv = true →
      ((ls.foldl sseLineStep st).1).all nonemptyEv = true := by
  induction ls with
  | nil => intro st h; exact h
  | cons l ls ih => intro st h; exact ih _ (sseLineStep_fst_all st l h)

theorem splitOnChar_ne_nil (sep : Char) (cs : List Char) : splitOnChar sep cs ≠ [] := by
  induction cs with
  | nil => simp [splitOnChar]
  | cons c cs ih =>
    unfold splitOnChar
    by_cases h : c = sep
    · simp [h]
    · rcases hsp : splitOnChar sep cs with _ | ⟨l, ls⟩
      · exact absurd hsp ih
      · simp [h, hsp]

theorem splitOnChar_append_sep (sep : Char) (a b : List Char) :
    splitOnChar sep (a ++ sep :: b) = splitOnChar sep a ++ splitOnChar sep b := by
  induction a with
  | nil => simp [splitOnChar]
  | cons c a ih =>
    by_cases h : c = sep
    · simp [splitOnChar, h, ih]
    · rcases hsp : splitOnChar sep a with _ | ⟨l, ls⟩
      · exact absurd hsp (splitOnChar_ne_nil sep a)
      · have hmain : splitOnChar sep (a ++ sep :: b) = l :: (ls ++ splitOnChar sep b) := by
          rw [ih, hsp]; simp
        simp [splitOnChar, h, hmain, hsp]

theorem sseLineStep_shift (evs : List SseEvent) (p : SseEvent) (l : List Char) :
    sseLineStep (evs, p) l =
      (evs ++ (sseLineStep ([], p) l).1, (sseLineStep ([], p) l).2) := by
  unfold sseLineStep
  dsimp only
  split_ifs <;> simp

theorem sseFold_shift (ls : List (List Char)) :
    ∀ (evs : List SseEvent) (p : SseEvent),
      ls.foldl sseLineStep (evs, p) =
        (evs ++ (ls.foldl sseLineStep ([], p)).1, (ls.foldl sseLineStep ([], p)).2) := by
  induction ls with
  | nil => intro evs p; simp
  | cons l ls ih =>
    intro evs p
    rw [List.foldl_cons, List.foldl_cons, sseLineStep_shift evs p l]
    rcases hst : sseLineStep ([], p) l with ⟨A, q⟩
    rw [ih (evs ++ A) q, ih A q]
    simp

theorem nonemptyEv_empty : nonemptyEv emptySseEvent = false := rfl

theorem sseLineStep_blank (evs : List SseEvent) (p : SseEvent) :
    sseLineStep (evs, p) [] =
      (evs ++ (if nonemptyEv p then [p] else []), emptySseEvent) := by
  by_cases hp : nonemptyEv p
  · simp [sseLineStep, jsTrim, hp]
  · simp [sseLineStep, jsTrim, hp, nonemptyEv_false_eq p (by simpa using hp),
      nonemptyEv_empty]

/-! ## Claim theorems -/

/-- Claim C6 (confirmed): the event-stream parser emits a pending frame
exactly when it has at least one field set — an event with no fields is
never emitted; a blank line closes and emits a non-empty pending frame (and
is a no-op otherwise); multiple `data:` lines within one frame are
concatenated; a trailing unterminated frame is emitted iff non-empty. -/
theorem sse_frame_emission_rules :
    (∀ cs : List Char, (parseSseEvents cs).all nonemptyEv = true)
    ∧ (∀ (evs : List SseEvent) (p : SseEvent) (line : List Char), jsTrim line = [] →
        sseLineStep (evs, p) line =
          if nonemptyEv p = true then (evs ++ [p], emptySseEvent) else (evs, p))
    ∧ parseSseEvents ("data: a\ndata: b\n\n".data) = [⟨none, some ('a' :: 'b' :: []), none⟩]
    ∧ parseSseEvents ("event: x".data) = [⟨some ('x' :: []), none, none⟩]
    ∧ parseSseEvents ("\n \n".data) = [] := by
  refine ⟨?_, ?_, by decide, by decide, by decide⟩
  · intro cs
    have hall := sseFold_all (splitOnChar '\n' cs) ([], emptySseEvent) rfl
    by_cases hp : nonemptyEv ((splitOnChar '\n' cs).foldl sseLineStep ([], emptySseEvent)).2
    · simp [parseSseEvents, finishSse, hp, List.all_append, hall]
    · simp [parseSseEvents, finishSse, hp, hall]
  · intro evs p line h
    by_cases hp : nonemptyEv p <;> simp [sseLineStep, h, hp]

/-- Witness for C6: a blank line with the pending frame `{data: "a"}` emits
that frame and resets the pending state. -/
theorem sse_frame_emission_rules_witness :
    sseLineStep ([], ⟨none, some ('a' :: []), none⟩) [] =
      ([⟨none, some ('a' :: []), none⟩], emptySseEvent) := by
  have h := sse_frame_emission_rules.2.1 [] ⟨none, some ('a' :: []), none⟩ [] rfl
  simpa using h

/-- Claim C7 (confirmed): parsing is compositional across an event
boundary — when a delivery `D1` ends with a frame closed by a blank line
(here `D1 = a ++ "\n\n"`), parsing `D1 ++ D2` yields exactly the events of
`D1` followed by the events of `D2`. -/
theorem parseSseEvents_boundary_append (a b : List Char) :
    parseSseEvents ((a ++ ('\n' :: '\n' :: [])) ++ b) =
      parseSseEvents (a ++ ('\n' :: '\n' :: [])) ++ parseSseEvents b := by
  rcases hEp : (splitOnChar '\n' a).foldl sseLineStep ([], emptySseEvent) with ⟨E, p⟩
  rcases hRq : (splitOnChar '\n' b).foldl sseLineStep ([], emptySseEvent) with ⟨Rb, qb⟩
  have h1 : splitOnChar '\n' ((a ++ ('\n' :: '\n' :: [])) ++ b) =
      splitOnChar '\n' a ++ ([] :: splitOnChar '\n' b) := by
    have hx : (a ++ ('\n' :: '\n' :: [])) ++ b = a ++ '\n' :: ('\n' :: b) := by simp
    rw [hx, splitOnChar_append_sep]
    simp [splitOnChar]
  have h2 : splitOnChar '\n' (a ++ ('\n' :: '\n' :: [])) =
      splitOnChar '\n' a ++ [[], []] := by
    rw [splitOnChar_append_sep]
    rfl
  unfold parseSseEvents
  rw [h1, h2, List.foldl_append, List.foldl_append, hEp, List.foldl_cons,
    sseLineStep_blank, sseFold_shift, hRq, List.foldl_cons, List.foldl_cons,
    sseLineStep_blank, sseLineStep_blank, nonemptyEv_empty]
  by_cases hq : nonemptyEv qb <;>
    simp [finishSse, hq, nonemptyEv_empty, List.append_assoc]

theorem jsIncludes_iff (hay sub : List Char) :
    jsIncludes hay sub = true ↔ sub <:+: hay := by
  constructor
  · intro h
    simp only [jsIncludes, List.any_eq_true] at h
    obtain ⟨t, ht, hpre⟩ := h
    rw [List.mem_tails] at ht
    rw [List.isPrefixOf_iff_prefix] at hpre
    exact List.infix_iff_prefix_suffix.mpr ⟨t, hpre, ht⟩
  · intro h
    obtain ⟨t, hpre, hsuf⟩ := List.infix_iff_prefix_suffix.mp h
    simp only [jsIncludes, List.any_eq_true]
    exact ⟨t, (List.mem_tails t hay).mpr hsuf, List.isPrefixOf_iff_prefix.mpr hpre⟩

theorem hasMessageStop_iff (events : List SseEvent) :
    hasMessageStop events = true ↔
      ∃ e ∈ events, e.event = some ("message_stop".data) := by
  simp [hasMessageStop, List.any_eq_true]

theorem hasContentBlockStop_iff (events : List SseEvent) :
    hasContentBlockStop events = true ↔
      ∃ e ∈ events, e.event = some ("content_block_stop".data) := by
  simp [hasContentBlockStop, List.any_eq_true]

theorem hasMessageDeltaStop_iff (events : List SseEvent) :
    hasMessageDeltaStop events = true ↔
      ∃ e ∈ events, e.event = some ("message_delta".data) ∧
        ∃ d, e.data = some d ∧ ("stop_reason".data) <:+: d := by
  simp only [hasMessageDeltaStop, List.any_eq_true]
  constructor
  · rintro ⟨e, he, hb⟩
    rw [Bool.and_eq_true] at hb
    obtain ⟨h1, h2⟩ := hb
    rw [decide_eq_true_eq] at h1
    refine ⟨e, he, h1, ?_⟩
    cases hd : e.data with
    | none => rw [hd] at h2; simp at h2
    | some d => rw [hd] at h2; exact ⟨d, rfl, (jsIncludes_iff d _).mp h2⟩
  · rintro ⟨e, he, h1, d, hd, hinf⟩
    refine ⟨e, he, ?_⟩
    rw [Bool.and_eq_true]
    exact ⟨decide_eq_true h1, by rw [hd]; exact (jsIncludes_iff d _).mpr hinf⟩

/-- Claim C2 (confirmed): the reassembler reports completion exactly when
the new batch contains a `message_stop` event, a `content_block_stop`
event, or a `message_delta` event whose data contains `stop_reason`; on
completion the per-exchange state is deleted from the map; and the
three-event example batch merges to "Hi there" with completion true. -/
theorem sse_completion_rule :
    (∀ (m : SseMap) (rid : List Char) (events : List SseEvent),
        ((processSseEvents m rid events).complete = true ↔
          (∃ e ∈ events, e.event = some ("message_stop".data)) ∨
          (∃ e ∈ events, e.event = some ("content_block_stop".data)) ∨
          (∃ e ∈ events, e.event = some ("message_delta".data) ∧
            ∃ d, e.data = some d ∧ ("stop_reason".data) <:+: d))
        ∧ ((processSseEvents m rid events).complete = true →
            mapGet (processSseEvents m rid events).sseMessages rid = none))
    ∧ processSseEvents [] ("r1".data) [cbdHiEvent, cbdThereEvent, messageStopEvent] =
        ⟨[], "Hi there".data, true⟩ := by
  refine ⟨?_, by rfl⟩
  intro m rid events
  constructor
  · have hc : (processSseEvents m rid events).complete = sseBatchTerminal events := rfl
    rw [hc]
    simp only [sseBatchTerminal, Bool.or_eq_true]
    rw [hasMessageStop_iff, hasContentBlockStop_iff, hasMessageDeltaStop_iff]
    simp [or_assoc]
  · intro h
    have h' : sseBatchTerminal events = true := h
    simp only [processSseEvents]
    simp [h', mapGet_mapDelete]

/-- Witness for C2: a batch holding only `message_stop` completes and its
exchange key is absent from the resulting map. -/
theorem sse_completion_rule_witness :
    mapGet (processSseEvents [] ("r1".data) [messageStopEvent]).sseMessages ("r1".data) =
      none :=
  (sse_completion_rule.1 [] ("r1".data) [messageStopEvent]).2 (by rfl)

theorem flatten_filter_pos (L : List (List Char)) :
    (L.filter (fun t => decide (0 < t.length))).flatten = L.flatten := by
  induction L with
  | nil => rfl
  | cons t L ih =>
    cases t with
    | nil => simpa using ih
    | cons c cs => simpa [List.filter_cons] using congrArg (fun z => (c :: cs) ++ z) ih

/-- Claim C5 (confirmed): each batch appends the delta texts of all
`content_block_delta` events to the merged accumulator in arrival order;
an event with malformed JSON data contributes the empty delta for that
event only, and the remaining deltas of the batch are still appended. -/
theorem sse_delta_merge :
    (∀ (m : SseMap) (rid : List Char) (events : List SseEvent),
        (processSseEvents m rid events).mergedContent =
          ((mapGet m rid).map (fun s => s.mergedContent)).getD [] ++
            ((events.filter
                (fun e => e.event = some ("content_block_delta".data))).map
              (fun e => extractDeltaText e.data)).flatten)
    ∧ (∀ d : List Char, jsonParse d = none → extractDeltaText (some d) = [])
    ∧ (processSseEvents [] ("r2".data)
        [cbdAEvent, cbdCorruptEvent, cbdCEvent]).mergedContent = 'A' :: 'C' :: [] := by
  refine ⟨?_, ?_, by rfl⟩
  · intro m rid events
    have hflat := flatten_filter_pos
      ((events.filter (fun e => e.event = some ("content_block_delta".data))).map
        (fun e => extractDeltaText e.data))
    have htd : textDeltas events =
        ((events.filter (fun e => e.event = some ("content_block_delta".data))).map
          (fun e => extractDeltaText e.data)).filter (fun t => decide (0 < t.length)) := rfl
    by_cases h : 0 < (textDeltas events).length
    · have hmerge : (processSseEvents m rid events).mergedContent =
          (match mapGet m rid with
            | some s => s.mergedContent
            | none => []) ++ (textDeltas events).flatten := by
        rcases hmg : mapGet m rid with _ | s <;> simp [processSseEvents, hmg, h]
      rw [hmerge, htd, hflat]
      rcases hmg : mapGet m rid with _ | s <;> simp [hmg]
    · have hnil : textDeltas events = [] := by
        rcases hlen : textDeltas events with _ | ⟨t, ts⟩
        · rfl
        · rw [hlen] at h; simp at h
      have hmerge : (processSseEvents m rid events).mergedContent =
          (match mapGet m rid with
            | some s => s.mergedContent
            | none => []) := by
        rcases hmg : mapGet m rid with _ | s <;> simp [processSseEvents, hmg, h]
      have hflatnil :
          ((events.filter (fun e => e.event = some ("content_block_delta".data))).map
            (fun e => extractDeltaText e.data)).flatten = [] := by
        rw [← hflat, ← htd, hnil]
        rfl
      rw [hmerge, hflatnil]
      rcases hmg : mapGet m rid with _ | s <;> simp [hmg]
  · intro d h
    by_cases hd : d = []
    · subst hd; rfl
    · simp [extractDeltaText, jsOrStr, hd, h]

/-- Witness for C5: a data payload that is not valid JSON yields the empty
delta. -/
theorem sse_delta_merge_witness :
    extractDeltaText (some ("\x7bnot json".data)) = [] :=
  sse_delta_merge.2.1 ("\x7bnot json".data) (by rfl)

/-- Counterexample to claim C3: a chat-mode exchange whose SSE response
body carries one delta and no terminal event still has its reassembly
entry in the map after the exchange-end processing — teardown does not
evict it. -/
theorem sse_state_eviction_counterexample :
    (mapGet (responseEndSseMessages optsChatOnly [] ("r3".data) sseNoStopBody
      eventStreamCt) ("r3".data)).isSome = true := by rfl

/-- Claim C3 as amended: exchange teardown touches the reassembly map only
through SSE body processing; when the body is processed as SSE, the entry
for the exchange is absent afterwards iff the batch contained a terminal
event — with no terminal event the entry remains (leaks) after teardown. -/
theorem sse_state_eviction_amended :
    ∀ (opts : ProxyServerOptions) (m : SseMap) (rid : List Char)
      (body : List Nat) (ct : Option (List Char)),
      (sseProcessedAtEnd opts body ct = false →
        responseEndSseMessages opts m rid body ct = m)
      ∧ (sseProcessedAtEnd opts body ct = true →
          (mapGet (responseEndSseMessages opts m rid body ct) rid = none ↔
            sseBatchTerminal (parseSseEvents (utf8Decode body)) = true)) := by
  intro opts m rid body ct
  constructor
  · intro h
    unfold responseEndSseMessages
    unfold sseProcessedAtEnd at h
    split_ifs with h1 h2
    · rw [h1, h2] at h; exact absurd h (by simp)
    · rfl
    · rfl
  · intro h
    unfold sseProcessedAtEnd at h
    rw [Bool.and_eq_true] at h
    obtain ⟨hA, hB⟩ := h
    unfold responseEndSseMessages
    rw [if_pos hA, if_pos hB]
    by_cases ht : sseBatchTerminal (parseSseEvents (utf8Decode body)) = true
    · simp [processSseStream, processSseEvents, ht, mapGet_mapDelete]
    · have ht' : sseBatchTerminal (parseSseEvents (utf8Decode body)) = false := by
        simpa using ht
      simp [processSseStream, processSseEvents, ht', mapGet_mapSet]

/-- Witness for the amended C3: when the processed batch does contain
`message_stop`, the entry is gone after teardown. -/
theorem sse_state_eviction_amended_witness :
    mapGet (responseEndSseMessages optsChatOnly [] ("r4".data) sseStopBody
      eventStreamCt) ("r4".data) = none :=
  ((sse_state_eviction_amended optsChatOnly [] ("r4".data) sseStopBody
      eventStreamCt).2 (by rfl)).mpr (by rfl)

theorem runReqData_written (opts : ProxyServerOptions) (chunks : List (List Nat)) :
    ∀ st : ReqForwardState,
      (chunks.foldl (onReqData opts) st).upstreamWritten =
        st.upstreamWritten ++ chunks := by
  induction chunks with
  | nil => intro st; simp
  | cons c cs ih =>
    intro st
    rw [List.foldl_cons, ih]
    simp [onReqData]

/-- Claim C1 (confirmed): for every chunk sequence arriving from the
client, the chunks written to the upstream request equal the chunks read,
in the same order, for every option configuration — the inspection
accumulator never alters the forwarded bytes. -/
theorem request_forwarding_exact :
    ∀ (opts : ProxyServerOptions) (draw : List Nat) (chunks : List (List Nat)),
      (runReqData opts (initReqState draw) chunks).upstreamWritten = chunks
      ∧ (runReqData opts (initReqState draw) chunks).upstreamWritten.flatten =
          chunks.flatten := by
  intro opts draw chunks
  have h : (runReqData opts (initReqState draw) chunks).upstreamWritten = chunks := by
    rw [runReqData, runReqData_written]
    rfl
  exact ⟨h, by rw [h]⟩

/-- Claim C4 (confirmed): an upstream error before response headers are
sent yields the code's 502-equivalent reply — status 500 with body
"Proxy Error" — and ends the response; after headers are sent, no status
or body is written and the response is simply ended. -/
theorem upstream_error_responses :
    ∀ res : ClientResState,
      (res.headersSent = false →
        (onProxyReqError res).writtenStatus = some 500 ∧
        (onProxyReqError res).bodyWrites = res.bodyWrites ++ [("Proxy Error".data)] ∧
        (onProxyReqError res).writableEnded = true)
      ∧ (res.headersSent = true →
          onProxyReqError res = res ∧
          (onProxyResError res).writtenStatus = res.writtenStatus ∧
          (onProxyResError res).bodyWrites = res.bodyWrites ∧
          (onProxyResError res).writableEnded = true) := by
  intro res
  constructor
  · intro h
    simp [onProxyReqError, h]
  · intro h
    refine ⟨by simp [onProxyReqError, h], ?_, ?_, ?_⟩ <;>
      by_cases he : res.writableEnded <;> simp [onProxyResError, he]

/-- Witness for C4: with headers not yet sent, the error reply carries
status 500. -/
theorem upstream_error_responses_witness :
    (onProxyReqError ⟨false, none, [], false⟩).writtenStatus = some 500 :=
  ((upstream_error_responses ⟨false, none, [], false⟩).1 rfl).1

/-- Counterexample to claim C8: the identifier is a pure function of the
`Math.random` draw and the code performs no uniqueness check, so a random
source that repeats a draw yields equal identifiers for distinct
exchanges. -/
theorem exchange_id_uniqueness_counterexample :
    ¬ (∀ (σ : Nat → List Nat) (j k : Nat), j ≠ k →
        idOfDraw (σ j) ≠ idOfDraw (σ k)) := by
  intro h
  exact h (fun _ => [0]) 0 1 (by decide) rfl

theorem digitChar_inj :
    ∀ a : Nat, a < 36 → ∀ b : Nat, b < 36 → digitChar a = digitChar b → a = b := by
  decide

theorem map_digitChar_inj :
    ∀ xs ys : List Nat, (∀ d ∈ xs, d < 36) → (∀ d ∈ ys, d < 36) →
      xs.map digitChar = ys.map digitChar → xs = ys := by
  intro xs
  induction xs with
  | nil =>
    intro ys _ _ h
    cases ys with
    | nil => rfl
    | cons y ys => simp at h
  | cons x xs ih =>
    intro ys hx hy h
    cases ys with
    | nil => simp at h
    | cons y ys =>
      simp only [List.map_cons, List.cons.injEq] at h
      have hxy := digitChar_inj x (hx x (by simp)) y (hy y (by simp)) h.1
      have htl := ih ys (fun d hd => hx d (by simp [hd])) (fun d hd => hy d (by simp [hd])) h.2
      rw [hxy, htl]

/-- Claim C8 as amended: identifiers are distinct whenever the first nine
base-36 digits of the underlying random draws differ (the id is derived
deterministically from the draw, with no uniqueness enforcement); the
identifier is assigned at accept time and is stable across all body
forwarding. -/
theorem exchange_id_amended :
    (∀ ds1 ds2 : List Nat, (∀ d ∈ ds1, d < 36) → (∀ d ∈ ds2, d < 36) →
        ds1.take 9 ≠ ds2.take 9 → idOfDraw ds1 ≠ idOfDraw ds2)
    ∧ (∀ (opts : ProxyServerOptions) (draw : List Nat) (chunks : List (List Nat)),
        (runReqData opts (initReqState draw) chunks).requestId = idOfDraw draw) := by
  constructor
  · intro ds1 ds2 h1 h2 hne heq
    exact hne (map_digitChar_inj (ds1.take 9) (ds2.take 9)
      (fun d hd => h1 d (List.mem_of_mem_take hd))
      (fun d hd => h2 d (List.mem_of_mem_take hd)) heq)
  · intro opts draw chunks
    have hpres : ∀ (cs : List (List Nat)) (st : ReqForwardState),
        (cs.foldl (onReqData opts) st).requestId = st.requestId := by
      intro cs
      induction cs with
      | nil => intro st; rfl
      | cons c cs ih => intro st; rw [List.foldl_cons, ih]; rfl
    exact hpres chunks _

/-- Witness for the amended C8: two distinct one-digit draws yield
distinct identifiers. -/
theorem exchange_id_amended_witness : idOfDraw [0] ≠ idOfDraw [1] :=
  exchange_id_amended.1 [0] [1] (by decide) (by decide) (by decide)

/-- Claim C9 (confirmed): the binary classifier returns true iff some byte
among the first `min 512 length` bytes is a null byte; a binary-classified
buffer is displayed only as a byte-length marker, and a non-binary buffer
is rendered as text. -/
theorem binary_classifier (b : List Nat) :
    (isBinaryData b = true ↔ ∃ i, i < min 512 b.length ∧ b.getD i 1 = 0)
    ∧ (isBinaryData b = true → formatBody b = BodyDisplay.binaryMarker b.length)
    ∧ (isBinaryData b = false → ∃ s, formatBody b = BodyDisplay.text s) := by
  refine ⟨?_, ?_, ?_⟩
  · have htk : b.take (min 512 b.length) = b.take 512 := by
      rcases le_total 512 b.length with h | h
      · rw [min_eq_left h]
      · rw [min_eq_right h, List.take_length, List.take_of_length_le h]
    unfold isBinaryData
    rw [htk, List.any_eq_true]
    constructor
    · rintro ⟨x, hx, hx0⟩
      rw [beq_iff_eq] at hx0
      rw [List.mem_iff_getElem] at hx
      obtain ⟨i, hi, hgi⟩ := hx
      have hlen : i < min 512 b.length := by
        simpa [List.length_take] using hi
      have hib : i < b.length := lt_of_lt_of_le hlen (min_le_right _ _)
      refine ⟨i, hlen, ?_⟩
      rw [List.getD_eq_getElem b 1 hib]
      have hbx : b[i] = x := by rw [← hgi]; exact (List.getElem_take b).symm
      rw [hbx, hx0]
    · rintro ⟨i, hi, h0⟩
      have hib : i < b.length := lt_of_lt_of_le hi (min_le_right _ _)
      have hit : i < (b.take 512).length := by
        simpa [List.length_take] using hi
      refine ⟨(b.take 512).get ⟨i, hit⟩, List.get_mem _ _ _, ?_⟩
      rw [beq_iff_eq]
      rw [List.getD_eq_getElem b 1 hib] at h0
      rw [← h0]
      exact List.getElem_take b
  · intro h
    simp [formatBody, h]
  · intro h
    exact ⟨formatBodyText (utf8Decode b), by simp [formatBody, h]⟩

/-- Witness for C9: the one-byte buffer `[0]` is classified binary and is
displayed as the binary marker. -/
theorem binary_classifier_witness :
    formatBody [0] = BodyDisplay.binaryMarker 1 :=
  (binary_classifier [0]).2.1 (by rfl)

theorem splitOnChar_no_sep (sep : Char) (cs : List Char) (h : sep ∉ cs) :
    splitOnChar sep cs = [cs] := by
  induction cs with
  | nil => rfl
  | cons c cs ih =>
    have hc : ¬ c = sep := by
      rintro rfl
      exact h (List.mem_cons_self c cs)
    have hrec := ih (fun hm => h (List.mem_cons_of_mem c hm))
    simp [splitOnChar, hc, hrec]

theorem splitOnChar_headD (sep : Char) (cs : List Char) :
    (splitOnChar sep cs).headD [] = cs.takeWhile (fun c => !(c == sep)) := by
  induction cs with
  | nil => rfl
  | cons c cs ih =>
    by_cases h : c = sep
    · simp [splitOnChar, h, List.takeWhile_cons]
    · rcases hsp : splitOnChar sep cs with _ | ⟨l, ls⟩
      · exact absurd hsp (splitOnChar_ne_nil sep cs)
      · have hl : l = cs.takeWhile (fun c => !(c == sep)) := by
          rw [← ih, hsp]
          rfl
        simp [splitOnChar, h, hsp, List.takeWhile_cons, hl]

/-- Counterexample to claim C10: for the authority `"h:"` the claim
predicts the empty port (the substring between the first colon and the
end), but the code's `parts[1] || '443'` treats the empty string as falsy
and yields the default "443". -/
theorem connect_port_empty_counterexample :
    (parseConnectUrl ('h' :: ':' :: [])).port = ("443".data) ∧
    ¬ ((parseConnectUrl ('h' :: ':' :: [])).port = []) := by
  exact ⟨by rfl, by decide⟩

/-- Claim C10 as amended: with no colon the whole authority is the
hostname and the port defaults to "443"; with a colon present the
hostname is the substring before the first colon and the port is the
substring between the first and second colon, except that an empty such
substring falls back to the default "443". -/
theorem connect_url_parsing_amended :
    (∀ cs : List Char, ':' ∉ cs → parseConnectUrl cs = ⟨cs, "443".data⟩)
    ∧ (∀ x y : List Char, ':' ∉ x →
        parseConnectUrl (x ++ ':' :: y) =
          ⟨x, if y.takeWhile (fun c => !(c == ':')) = [] then "443".data
              else y.takeWhile (fun c => !(c == ':'))⟩) := by
  constructor
  · intro cs h
    simp [parseConnectUrl, splitOnChar_no_sep ':' cs h]
  · intro x y hx
    have hsp : splitOnChar ':' (x ++ ':' :: y) = x :: splitOnChar ':' y := by
      rw [splitOnChar_append_sep, splitOnChar_no_sep ':' x hx]
      rfl
    rcases hsy : splitOnChar ':' y with _ | ⟨l, ls⟩
    · exact absurd hsy (splitOnChar_ne_nil ':' y)
    · have hl : l = y.takeWhile (fun c => !(c == ':')) := by
        rw [← splitOnChar_headD, hsy]
        rfl
      simp [parseConnectUrl, hsp, hsy, hl]

/-- Witness for the amended C10: a colon-free authority keeps the whole
string as hostname with default port 443. -/
theorem connect_url_parsing_amended_witness :
    parseConnectUrl ("example.com".data) = ⟨"example.com".data, "443".data⟩ :=
  connect_url_parsing_amended.1 ("example.com".data) (by decide)
